import Mathlib

/-!
Verification of the skforecast recursive prediction engine and backtesting
orchestrator against the repository sources.

The backtesting orchestrator is embedded from
`src/skforecast/model_selection/_validation.py`.  The recursive step loop
(`ForecasterAutoreg._recursive_predict`) and the fold splitter
(`TimeSeriesFold.split`) are collaborators whose implementation files are not
among the sources; they are modelled from the specification, as marked in the
doc comments of the corresponding definitions.

Machine floating point is idealised as exact rational arithmetic `ℚ`.
-/

namespace Skforecast

/-! ## Residual sources

The specification (design notes) prescribes a tagged variant: a flat
per-step vector of residuals, or a bin-keyed mapping with one pre-sampled
residual vector per bin, resolved by the bin of the current raw prediction. -/

/-- Modelled from the spec: the residual store consumed by
`_recursive_predict` (spec sections 3 and 4.2); the implementation file of
the predictor is not among the sources, only its unit tests.  `flat` is the
unconditioned mode (one residual per step, in step order); `binned` maps a
bin identifier to a per-step residual vector, with the bin resolved from the
raw prediction of the current step. -/
inductive ResidualSource where
  | flat (seq : List ℚ)
  | binned (pools : ℕ → List ℚ) (binOf : ℚ → ℕ)

/-- Residual added at step `i` for a raw prediction `raw`.  Out-of-range
lookups default to `0`. -/
def residualAt : Option ResidualSource → ℕ → ℚ → ℚ
  | none, _, _ => 0
  | some (.flat seq), i, _ => seq.getD i 0
  | some (.binned pools binOf), i, raw => (pools (binOf raw)).getD i 0

/-! ## Recursive predictor -/

/-- Modelled from the spec: the static configuration of the recursive
predictor (spec section 4.1): lag offsets (lag 1 = most recent window
value), window-derived statistic features, and the fitted regressor's
point-prediction capability on an assembled feature row. -/
structure PredictorConfig where
  lags : List ℕ
  windowFeatures : List (List ℚ → ℚ)
  regressor : List ℚ → ℚ

/-- Value of the window at lag offset `l` (lag 1 = last element of the
window). -/
def lagValue (w : List ℚ) (l : ℕ) : ℚ := w.getD (w.length - l) 0

/-- Modelled from the spec: feature assembly (spec section 4.1, step 1):
selected lag values, then window-statistic features, then the exogenous row
of the current step. -/
def assembleFeatures (cfg : PredictorConfig) (w : List ℚ) (exogRow : List ℚ) : List ℚ :=
  cfg.lags.map (lagValue w) ++ cfg.windowFeatures.map (fun s => s w) ++ exogRow

/-- Modelled from the spec: the step loop of
`ForecasterAutoreg._recursive_predict` (spec section 4.1, steps 1-5), whose
implementation file is not among the sources (only its unit tests in
`src/skforecast/ForecasterAutoreg/tests/test_recursive_predict.py`).
`s` steps remain, `i` is the current absolute step index, `w` the current
window (most recent value last).  Each step assembles features, obtains the
raw regressor prediction, adds the residual selected for `(i, raw)`, emits
the perturbed value and feeds it back into the window, dropping the oldest
entry. -/
def recursivePredictFrom (cfg : PredictorConfig) (exog : List (List ℚ))
    (res : Option ResidualSource) : ℕ → ℕ → List ℚ → List ℚ
  | 0, _, _ => []
  | s + 1, i, w =>
    let raw := cfg.regressor (assembleFeatures cfg w (exog.getD i []))
    let pred := raw + residualAt res i raw
    pred :: recursivePredictFrom cfg exog res s (i + 1) (w.drop 1 ++ [pred])

/-- Modelled from the spec: `_recursive_predict` (spec section 4.1
contract): predict `steps` values starting from `lastWindow`, with optional
exogenous rows and optional residual source. -/
def recursivePredict (cfg : PredictorConfig) (steps : ℕ) (lastWindow : List ℚ)
    (exog : List (List ℚ)) (res : Option ResidualSource) : List ℚ :=
  recursivePredictFrom cfg exog res steps 0 lastWindow

theorem recursivePredictFrom_length (cfg : PredictorConfig) (exog : List (List ℚ))
    (res : Option ResidualSource) :
    ∀ (s i : ℕ) (w : List ℚ), (recursivePredictFrom cfg exog res s i w).length = s := by
  intro s
  induction s with
  | zero => intro i w; rfl
  | succ s ih => intro i w; simp [recursivePredictFrom, ih]

/-- With a flat residual vector that reads as zero at every consumed step,
the run coincides with the residual-free run. -/
theorem recursivePredictFrom_zero_residuals (cfg : PredictorConfig)
    (exog : List (List ℚ)) (l : List ℚ) :
    ∀ (s i : ℕ) (w : List ℚ), (∀ j, i ≤ j → j < i + s → l.getD j 0 = 0) →
      recursivePredictFrom cfg exog (some (.flat l)) s i w
        = recursivePredictFrom cfg exog none s i w := by
  intro s
  induction s with
  | zero => intro i w _; rfl
  | succ s ih =>
    intro i w hz
    have h0 : l.getD i 0 = 0 := hz i (Nat.le_refl i) (by omega)
    simp only [recursivePredictFrom, residualAt, h0, add_zero]
    rw [ih (i + 1) _ (fun j h1 h2 => hz j (by omega) (by omega))]

/-! ## The fitted linear regressor of the arange sanity case

`LinearRegression` fit on `y = arange(50)` with lags `[1, 2, 3]` is an
external collaborator; what the tests rely on is only that the fitted
coefficients reproduce every training row exactly (the training system is
consistent, so the least-squares fit interpolates it).  The fit is therefore
represented by coefficients `a1 a2 a3 b` together with the interpolation
hypothesis on the training rows. -/

/-- A linear point-prediction capability on three-feature rows
(`lag 1`, `lag 2`, `lag 3`). -/
def linRegressor (a1 a2 a3 b : ℚ) : List ℚ → ℚ
  | [x1, x2, x3] => a1 * x1 + a2 * x2 + a3 * x3 + b
  | _ => 0

/-- The recursive-predictor configuration of the arange sanity tests:
lags `[1, 2, 3]`, no window features, fitted linear regressor. -/
def arangeLinCfg (a1 a2 a3 b : ℚ) : PredictorConfig :=
  ⟨[1, 2, 3], [], linRegressor a1 a2 a3 b⟩

theorem linRegressor_arange_key (a1 a2 a3 b : ℚ)
    (hfit : ∀ t : ℚ, 3 ≤ t → t ≤ 49 →
      linRegressor a1 a2 a3 b [t - 1, t - 2, t - 3] = t) :
    ∀ t : ℚ, linRegressor a1 a2 a3 b [t + 2, t + 1, t] = t + 3 := by
  intro t
  have e3 := hfit 3 (by norm_num) (by norm_num)
  have e4 := hfit 4 (by norm_num) (by norm_num)
  simp only [linRegressor] at e3 e4 ⊢
  norm_num at e3 e4
  linear_combination t * e4 - t * e3 + e3

theorem lagValue_three_1 (x y z : ℚ) : lagValue [x, y, z] 1 = z := rfl

theorem lagValue_three_2 (x y z : ℚ) : lagValue [x, y, z] 2 = y := rfl

theorem lagValue_three_3 (x y z : ℚ) : lagValue [x, y, z] 3 = x := rfl

theorem arangeLinCfg_lags (a1 a2 a3 b : ℚ) : (arangeLinCfg a1 a2 a3 b).lags = [1, 2, 3] := rfl

theorem arangeLinCfg_wf (a1 a2 a3 b : ℚ) : (arangeLinCfg a1 a2 a3 b).windowFeatures = [] := rfl

theorem arangeLinCfg_reg (a1 a2 a3 b : ℚ) :
    (arangeLinCfg a1 a2 a3 b).regressor = linRegressor a1 a2 a3 b := rfl

/-- The arithmetic output sequence of the arange sanity run. -/
def arithSeq (t : ℚ) : ℕ → List ℚ
  | 0 => []
  | s + 1 => (t + 3) :: arithSeq (t + 1) s

theorem arange_run (a1 a2 a3 b : ℚ)
    (key : ∀ t : ℚ, linRegressor a1 a2 a3 b [t + 2, t + 1, t] = t + 3) :
    ∀ (s i : ℕ) (t : ℚ),
      recursivePredictFrom (arangeLinCfg a1 a2 a3 b) [] none s i [t, t + 1, t + 2]
        = arithSeq t s := by
  intro s
  induction s with
  | zero => intro i t; rfl
  | succ s ih =>
    intro i t
    have hw : ([t + 1, t + 2, t + 3] : List ℚ) = [t + 1, (t + 1) + 1, (t + 1) + 2] := by
      refine congrArg₂ _ rfl (congrArg₂ _ (by ring) (congrArg₂ _ (by ring) rfl))
    simp only [recursivePredictFrom, assembleFeatures, arangeLinCfg_lags, arangeLinCfg_wf,
      arangeLinCfg_reg, lagValue_three_1,
      lagValue_three_2, lagValue_three_3, residualAt, add_zero, List.map_cons, List.map_nil,
      List.drop, List.cons_append, List.nil_append, List.append_nil, List.getD_nil]
    rw [key t, hw, ih (i + 1) (t + 1)]
    rfl

theorem arange_run_50 (a1 a2 a3 b : ℚ)
    (hfit : ∀ t : ℚ, 3 ≤ t → t ≤ 49 →
      linRegressor a1 a2 a3 b [t - 1, t - 2, t - 3] = t) :
    recursivePredict (arangeLinCfg a1 a2 a3 b) 5 [47, 48, 49] [] none
      = [50, 51, 52, 53, 54] := by
  have hw : ([47, 48, 49] : List ℚ) = [47, 47 + 1, 47 + 2] := by norm_num
  rw [recursivePredict, hw,
    arange_run a1 a2 a3 b (linRegressor_arange_key a1 a2 a3 b hfit) 5 0 47]
  norm_num [arithSeq]

/-- Claim C1: for every configuration of the recursive predictor, a flat
residual vector reading zero at every consumed step produces the same output
sequence as supplying no residual source at all; and the `lags=3` forecaster
fit on `y = arange(50)` (represented by any linear coefficients that
reproduce the training rows) predicts `[50, 51, 52, 53, 54]` for 5 steps,
both with no residuals and with residuals `[0, 0, 0, 0, 0]`. -/
theorem claim_C1_zero_residuals_identity (cfg : PredictorConfig) (steps : ℕ)
    (w : List ℚ) (exog : List (List ℚ)) (l : List ℚ) (a1 a2 a3 b : ℚ)
    (hl : ∀ j, j < steps → l.getD j 0 = 0)
    (hfit : ∀ t : ℚ, 3 ≤ t → t ≤ 49 →
      linRegressor a1 a2 a3 b [t - 1, t - 2, t - 3] = t) :
    recursivePredict cfg steps w exog (some (.flat l))
      = recursivePredict cfg steps w exog none
    ∧ recursivePredict (arangeLinCfg a1 a2 a3 b) 5 [47, 48, 49] [] none
      = [50, 51, 52, 53, 54]
    ∧ recursivePredict (arangeLinCfg a1 a2 a3 b) 5 [47, 48, 49] []
        (some (.flat [0, 0, 0, 0, 0])) = [50, 51, 52, 53, 54] := by
  refine ⟨?_, arange_run_50 a1 a2 a3 b hfit, ?_⟩
  · exact recursivePredictFrom_zero_residuals cfg exog l steps 0 w
      (fun j h1 h2 => hl j (by omega))
  · rw [recursivePredict, recursivePredictFrom_zero_residuals _ _ _ _ _ _
      (fun j h1 h2 => by interval_cases j <;> rfl)]
    exact arange_run_50 a1 a2 a3 b hfit

theorem claim_C1_witness :
    recursivePredict (arangeLinCfg 1 0 0 1) 5 [47, 48, 49] []
        (some (.flat [0, 0, 0, 0, 0]))
      = recursivePredict (arangeLinCfg 1 0 0 1) 5 [47, 48, 49] [] none
    ∧ recursivePredict (arangeLinCfg 1 0 0 1) 5 [47, 48, 49] [] none
      = [50, 51, 52, 53, 54]
    ∧ recursivePredict (arangeLinCfg 1 0 0 1) 5 [47, 48, 49] []
        (some (.flat [0, 0, 0, 0, 0])) = [50, 51, 52, 53, 54] := by
  have h := claim_C1_zero_residuals_identity (arangeLinCfg 1 0 0 1) 5 [47, 48, 49]
    [] [0, 0, 0, 0, 0] 1 0 0 1
    (by intro j hj; interval_cases j <;> rfl)
    (by intro t h1 h2; simp [linRegressor])
  exact ⟨h.1, h.2.1, h.2.2⟩

/-- Claim C8: predicting `steps = 0` returns the empty output sequence for
every window, exogenous input and residual configuration. -/
theorem claim_C8_zero_steps (cfg : PredictorConfig) (w : List ℚ)
    (exog : List (List ℚ)) (res : Option ResidualSource) :
    recursivePredict cfg 0 w exog res = [] := rfl

/-! ## Residual injection at the last step (claim C2) -/

/-- Apply `f` to the last element of a list, if any. -/
def updateLast (f : ℚ → ℚ) : List ℚ → List ℚ
  | [] => []
  | [x] => [f x]
  | x :: y :: xs => x :: updateLast f (y :: xs)

theorem updateLast_cons (f : ℚ → ℚ) (x : ℚ) (l : List ℚ) (h : l ≠ []) :
    updateLast f (x :: l) = x :: updateLast f l := by
  cases l with
  | nil => exact absurd rfl h
  | cons y ys => rfl

/-- A flat residual vector reading zero before the last consumed step and
`r` at the last consumed step yields the unperturbed run with its last
output shifted by `r`: the window feedback of all earlier steps uses the
unperturbed values, so earlier outputs and the final raw prediction are
unchanged. -/
theorem recursivePredictFrom_last_residual (cfg : PredictorConfig)
    (exog : List (List ℚ)) (l : List ℚ) (r : ℚ) :
    ∀ (s i : ℕ) (w : List ℚ), s ≠ 0 →
      (∀ j, i ≤ j → j + 1 < i + s → l.getD j 0 = 0) →
      l.getD (i + s - 1) 0 = r →
      recursivePredictFrom cfg exog (some (.flat l)) s i w
        = updateLast (fun x => x + r) (recursivePredictFrom cfg exog none s i w) := by
  intro s
  induction s with
  | zero => intro i w h; exact absurd rfl h
  | succ s ih =>
    intro i w _ hz hr
    by_cases hs : s = 0
    · subst hs
      have hri : l.getD i 0 = r := by simpa using hr
      simp only [recursivePredictFrom, residualAt, hri, updateLast, add_zero]
    · have h0 : l.getD i 0 = 0 := hz i (Nat.le_refl i) (by omega)
      simp only [recursivePredictFrom, residualAt, h0, add_zero]
      rw [ih (i + 1) _ hs (fun j h1 h2 => hz j (by omega) (by omega))
        (by have : i + 1 + s - 1 = i + (s + 1) - 1 := by omega
            rw [this]; exact hr)]
      rw [updateLast_cons]
      intro hnil
      have := recursivePredictFrom_length cfg exog none s (i + 1)
        (w.drop 1 ++ [cfg.regressor (assembleFeatures cfg w (exog.getD i []))])
      rw [hnil] at this
      exact hs this.symm

theorem getD_replicate_zero : ∀ (n j : ℕ), (List.replicate n (0 : ℚ)).getD j 0 = 0
  | 0, _ => by simp
  | n + 1, 0 => by simp [List.replicate]
  | n + 1, j + 1 => by simp [List.replicate, getD_replicate_zero n j]

/-- Claim C2: in unconditioned residual mode, a residual vector that is zero
at every step except the last shifts exactly the last output by that
residual and leaves all earlier outputs equal to the unperturbed forecasts;
concretely, lags `[1, 2, 3]` fit on `y = 0..49` with residuals
`[0, 0, 0, 0, 100]` over 5 steps yields `[50, 51, 52, 53, 154]`. -/
theorem claim_C2_last_step_residual (cfg : PredictorConfig) (exog : List (List ℚ))
    (w : List ℚ) (s : ℕ) (r : ℚ) (a1 a2 a3 b : ℚ) (hs : s ≠ 0)
    (hfit : ∀ t : ℚ, 3 ≤ t → t ≤ 49 →
      linRegressor a1 a2 a3 b [t - 1, t - 2, t - 3] = t) :
    recursivePredict cfg s w exog (some (.flat (List.replicate (s - 1) 0 ++ [r])))
      = updateLast (fun x => x + r) (recursivePredict cfg s w exog none)
    ∧ recursivePredict (arangeLinCfg a1 a2 a3 b) 5 [47, 48, 49] []
        (some (.flat [0, 0, 0, 0, 100])) = [50, 51, 52, 53, 154] := by
  constructor
  · refine recursivePredictFrom_last_residual cfg exog _ r s 0 w hs ?_ ?_
    · intro j _ hj
      rw [List.getD_append _ _ _ _ (by simp; omega)]
      exact getD_replicate_zero _ _
    · rw [Nat.zero_add, List.getD_append_right _ _ _ _ (by simp)]
      simp
  · have h1 : recursivePredictFrom (arangeLinCfg a1 a2 a3 b) [] (some (.flat [0, 0, 0, 0, 100]))
        5 0 [47, 48, 49]
        = updateLast (fun x => x + 100)
            (recursivePredictFrom (arangeLinCfg a1 a2 a3 b) [] none 5 0 [47, 48, 49]) := by
      refine recursivePredictFrom_last_residual _ _ _ _ 5 0 _ (by norm_num) ?_ (by rfl)
      intro j _ hj
      have hj4 : j < 4 := by omega
      interval_cases j <;> rfl
    rw [recursivePredict, h1]
    rw [show recursivePredictFrom (arangeLinCfg a1 a2 a3 b) [] none 5 0 [47, 48, 49]
        = recursivePredict (arangeLinCfg a1 a2 a3 b) 5 [47, 48, 49] [] none from rfl]
    rw [arange_run_50 a1 a2 a3 b hfit]
    norm_num [updateLast]

theorem claim_C2_witness :
    recursivePredict (arangeLinCfg 1 0 0 1) 5 [47, 48, 49] []
        (some (.flat (List.replicate 4 0 ++ [100])))
      = updateLast (fun x => x + 100)
          (recursivePredict (arangeLinCfg 1 0 0 1) 5 [47, 48, 49] [] none)
    ∧ recursivePredict (arangeLinCfg 1 0 0 1) 5 [47, 48, 49] []
        (some (.flat [0, 0, 0, 0, 100])) = [50, 51, 52, 53, 154] := by
  have h := claim_C2_last_step_residual (arangeLinCfg 1 0 0 1) [] [47, 48, 49] 5 100
    1 0 0 1 (by norm_num) (by intro t h1 h2; simp [linRegressor])
  exact ⟨h.1, h.2⟩

/-! ## Backtesting orchestrator: fold descriptors

Embedded from `src/skforecast/model_selection/_validation.py`.  A fold, as
consumed by `_fit_predict_forecaster`, is the tuple
`[train_range, last_window_range, test_range, test_no_gap_range, fit_flag]`
of iloc (integer-location) bounds. -/

structure Fold where
  trainStart : ℕ
  trainEnd : ℕ
  lwStart : ℕ
  lwEnd : ℕ
  testStart : ℕ
  testEnd : ℕ
  tngStart : ℕ
  tngEnd : ℕ
  fit : Bool
deriving Repr, DecidableEq, Inhabited

/-! ## Gap handling in `_fit_predict_forecaster` (claim C3)

Embedding of `_validation.py` lines 230-239 and 259-260: the `steps`
argument passed to `forecaster.predict` is the full test-range length,
except that a `ForecasterAutoregDirect` with `gap > 0` receives the explicit
list of horizons `gap + 1 .. gap + len(test_no_gap_range)`; afterwards, for a
non-direct forecaster with `gap > 0`, the first `gap` rows of the prediction
are dropped (`pred.iloc[gap:, ]`). -/

/-- The `steps` argument built by `_fit_predict_forecaster`: either a step
count or an explicit list of horizons. -/
inductive StepsSpec where
  | count (n : ℕ)
  | horizons (l : List ℕ)
deriving Repr, DecidableEq

/-- `_validation.py` lines 230-239: `steps = len(range(test_start, test_end))`,
replaced for a direct forecaster with positive gap by the horizon list
`arange(len(range(tng_start, tng_end))) + gap + 1`. -/
def foldSteps (isDirect : Bool) (gap : ℕ) (f : Fold) : StepsSpec :=
  if isDirect ∧ 0 < gap then
    .horizons ((List.range (f.tngEnd - f.tngStart)).map (fun j => j + gap + 1))
  else
    .count (f.testEnd - f.testStart)

/-- Time indices at which `forecaster.predict` produces values: a count `n`
predicts horizons `1..n` (indices `testStart..testStart+n-1`); an explicit
horizon `h` lands at index `testStart + h - 1`. -/
def predictIndexes (f : Fold) : StepsSpec → List ℕ
  | .count n => (List.range n).map (fun j => f.testStart + j)
  | .horizons l => l.map (fun h => f.testStart + h - 1)

/-- Indices whose predictions the fold computes. -/
def foldComputedIndexes (isDirect : Bool) (gap : ℕ) (f : Fold) : List ℕ :=
  predictIndexes f (foldSteps isDirect gap f)

/-- `_validation.py` lines 259-260: a non-direct forecaster with positive
gap has the first `gap` predictions trimmed before the fold prediction is
returned for stitching. -/
def foldReturnedIndexes (isDirect : Bool) (gap : ℕ) (f : Fold) : List ℕ :=
  if ¬isDirect ∧ 0 < gap then (foldComputedIndexes isDirect gap f).drop gap
  else foldComputedIndexes isDirect gap f

theorem range_map_add_eq_range' (a n : ℕ) :
    (List.range n).map (fun j => a + j) = List.range' a n := by
  induction n with
  | zero => rfl
  | succ n ih =>
    rw [List.range_succ, List.map_append, ih, List.map_cons, List.map_nil,
      List.range'_concat]
    simp

theorem drop_range' : ∀ (g a n : ℕ), (List.range' a n).drop g = List.range' (a + g) (n - g) := by
  intro g
  induction g with
  | zero => intro a n; simp
  | succ g ih =>
    intro a n
    cases n with
    | zero => simp [List.range']
    | succ n =>
      rw [List.range'_succ, List.drop_succ_cons, ih (a + 1) n]
      have h1 : a + 1 + g = a + (g + 1) := by omega
      have h2 : n - g = n + 1 - (g + 1) := by omega
      rw [h1, h2]

/-- A fold descriptor is well formed for gap handling when its no-gap test
range is the test range with the first `gap` indices removed. -/
def Fold.gapWellFormed (f : Fold) (gap : ℕ) : Prop :=
  f.tngStart = f.testStart + gap ∧ f.tngEnd = f.testEnd ∧ f.testStart + gap ≤ f.testEnd

instance (f : Fold) (gap : ℕ) : Decidable (f.gapWellFormed gap) := by
  unfold Fold.gapWellFormed; infer_instance

/-- Counterexample to claim C3 as stated: with a `ForecasterAutoregDirect`
and `gap = 1`, the fold's gap step (index 10 of the test range `10..13`) is
never computed — only the no-gap horizons are requested — and nothing is
trimmed from the returned prediction. -/
theorem claim_C3_counterexample :
    foldComputedIndexes true 1 ⟨0, 10, 7, 10, 10, 14, 11, 14, true⟩
        ≠ List.range' 10 4
    ∧ 10 ∉ foldComputedIndexes true 1 ⟨0, 10, 7, 10, 10, 14, 11, 14, true⟩
    ∧ foldReturnedIndexes true 1 ⟨0, 10, 7, 10, 10, 14, 11, 14, true⟩
        = foldComputedIndexes true 1 ⟨0, 10, 7, 10, 10, 14, 11, 14, true⟩ := by
  refine ⟨?_, ?_, ?_⟩ <;> decide

/-- Claim C3 (amended): for every fold with `gap > 0` evaluated with a
non-direct forecaster, predictions are computed for the whole test range
(gap steps included) and the first `gap` of them are trimmed from the
returned fold prediction, which therefore covers exactly the no-gap range;
a `ForecasterAutoregDirect` instead computes only the no-gap horizons with
no trimming, so in both cases the stitched output contains no gap-step
predictions. -/
theorem claim_C3_gap_trimming (f : Fold) (gap : ℕ) (hg : 0 < gap)
    (hwf : f.gapWellFormed gap) :
    foldComputedIndexes false gap f = List.range' f.testStart (f.testEnd - f.testStart)
    ∧ foldReturnedIndexes false gap f = (foldComputedIndexes false gap f).drop gap
    ∧ foldReturnedIndexes false gap f
        = List.range' (f.testStart + gap) (f.testEnd - (f.testStart + gap))
    ∧ foldReturnedIndexes true gap f
        = List.range' (f.testStart + gap) (f.testEnd - (f.testStart + gap))
    ∧ (∀ j, j ∈ foldReturnedIndexes false gap f → f.testStart + gap ≤ j)
    ∧ (∀ j, j ∈ foldReturnedIndexes true gap f → f.testStart + gap ≤ j) := by
  obtain ⟨h1, h2, h3⟩ := hwf
  have hcomp : foldComputedIndexes false gap f
      = List.range' f.testStart (f.testEnd - f.testStart) := by
    simp only [foldComputedIndexes, foldSteps, predictIndexes]
    rw [if_neg (by simp)]
    exact range_map_add_eq_range' _ _
  have hret : foldReturnedIndexes false gap f
      = List.range' (f.testStart + gap) (f.testEnd - (f.testStart + gap)) := by
    rw [foldReturnedIndexes, if_pos (by simp [hg]), hcomp, drop_range']
    have : f.testEnd - f.testStart - gap = f.testEnd - (f.testStart + gap) := by omega
    rw [this]
  have hdirect : foldReturnedIndexes true gap f
      = List.range' (f.testStart + gap) (f.testEnd - (f.testStart + gap)) := by
    have hc : foldComputedIndexes true gap f
        = ((List.range (f.tngEnd - f.tngStart)).map (fun j => j + gap + 1)).map
            (fun h => f.testStart + h - 1) := by
      unfold foldComputedIndexes foldSteps
      rw [if_pos (by simp [hg])]
      rfl
    rw [foldReturnedIndexes, if_neg (by simp), hc, List.map_map]
    have hfun : ∀ j ∈ List.range (f.tngEnd - f.tngStart),
        ((fun h => f.testStart + h - 1) ∘ fun j => j + gap + 1) j
          = (fun j => (f.testStart + gap) + j) j := by
      intro j _
      simp only [Function.comp_apply]
      omega
    rw [List.map_congr_left hfun, range_map_add_eq_range']
    have : f.tngEnd - f.tngStart = f.testEnd - (f.testStart + gap) := by omega
    rw [this]
  refine ⟨hcomp, ?_, hret, hdirect, ?_, ?_⟩
  · rw [hret, hcomp, drop_range']
    have : f.testEnd - f.testStart - gap = f.testEnd - (f.testStart + gap) := by omega
    rw [this]
  · intro j hj
    rw [hret] at hj
    exact (List.mem_range'_1.mp hj).1
  · intro j hj
    rw [hdirect] at hj
    exact (List.mem_range'_1.mp hj).1

theorem claim_C3_witness :
    foldComputedIndexes false 1 ⟨0, 10, 7, 10, 10, 14, 11, 14, false⟩
      = List.range' 10 4
    ∧ foldReturnedIndexes false 1 ⟨0, 10, 7, 10, 10, 14, 11, 14, false⟩
      = (foldComputedIndexes false 1 ⟨0, 10, 7, 10, 10, 14, 11, 14, false⟩).drop 1
    ∧ foldReturnedIndexes false 1 ⟨0, 10, 7, 10, 10, 14, 11, 14, false⟩
      = List.range' 11 3
    ∧ foldReturnedIndexes true 1 ⟨0, 10, 7, 10, 10, 14, 11, 14, false⟩
      = List.range' 11 3
    ∧ (∀ j, j ∈ foldReturnedIndexes false 1 ⟨0, 10, 7, 10, 10, 14, 11, 14, false⟩ → 11 ≤ j)
    ∧ (∀ j, j ∈ foldReturnedIndexes true 1 ⟨0, 10, 7, 10, 10, 14, 11, 14, false⟩ → 11 ≤ j) := by
  exact claim_C3_gap_trimming ⟨0, 10, 7, 10, 10, 14, 11, 14, false⟩ 1
    (by norm_num) (by decide)

/-! ## Parallelism downgrade for intermittent refit (claim C4)

Embedding of `_validation.py` lines 131-144: resolution of the effective
`n_jobs`, together with the flag recording whether the
`IgnoredArgumentWarning` is issued. -/

/-- The `refit` argument: Python distinguishes booleans from integers with
`isinstance(refit, bool)`. -/
inductive RefitArg where
  | ofBool (b : Bool)
  | ofInt (k : ℤ)
deriving Repr, DecidableEq

/-- The `n_jobs` argument: the string `auto` or an integer. -/
inductive NJobsArg where
  | auto
  | ofInt (n : ℤ)
deriving Repr, DecidableEq

/-- `_validation.py` lines 131-144.  `autoSel` stands for the value chosen
by the external `select_n_jobs_backtesting`, `cpu` for `cpu_count()`.
Returns the effective number of jobs and whether the
`IgnoredArgumentWarning` was issued.  Every branch returns: no branch
raises. -/
def resolve_n_jobs (refit : RefitArg) (nj : NJobsArg) (cpu autoSel : ℕ) : ℕ × Bool :=
  match nj with
  | .auto => (autoSel, false)
  | .ofInt n =>
    match refit with
    | .ofInt k =>
      if k ≠ 1 ∧ n ≠ 1 then (1, true)
      else if 0 < n then (n.toNat, false) else (cpu, false)
    | .ofBool _ =>
      if 0 < n then (n.toNat, false) else (cpu, false)

/-- Claim C4: whenever `refit` is an integer other than 1 and more than one
parallel job is requested, the run does not fail: the warning is issued and
`n_jobs` is forced to 1 (serial execution), after which the backtest
proceeds (the resolution is total and yields a positive job count). -/
theorem claim_C4_intermittent_refit_serial (k n : ℤ) (cpu autoSel : ℕ)
    (hk : k ≠ 1) (hn : 1 < n) :
    resolve_n_jobs (.ofInt k) (.ofInt n) cpu autoSel = (1, true)
    ∧ 0 < (resolve_n_jobs (.ofInt k) (.ofInt n) cpu autoSel).1 := by
  have h : resolve_n_jobs (.ofInt k) (.ofInt n) cpu autoSel = (1, true) := by
    rw [resolve_n_jobs, if_pos ⟨hk, by omega⟩]
  exact ⟨h, by rw [h]; norm_num⟩

theorem claim_C4_witness :
    resolve_n_jobs (.ofInt 2) (.ofInt 4) 8 8 = (1, true)
    ∧ 0 < (resolve_n_jobs (.ofInt 2) (.ofInt 4) 8 8).1 :=
  claim_C4_intermittent_refit_serial 2 4 8 8 (by norm_num) (by norm_num)

/-! ## Forecaster type gate of `backtesting_forecaster` (claim C9)

Embedding of `_validation.py` lines 395-406: the public entry point first
checks the forecaster's type name against `forecaters_allowed` and raises
`TypeError` before any further work; the docstring (line 333) documents only
`ForecasterAutoreg, ForecasterAutoregDirect` as accepted parameter types. -/

def forecasters_allowed : List String :=
  ["ForecasterAutoreg", "ForecasterAutoregDirect", "ForecasterEquivalentDate"]

/-- The forecaster types named in the `forecaster` parameter documentation
of `backtesting_forecaster` (`_validation.py` line 333). -/
def documented_forecasters : List String :=
  ["ForecasterAutoreg", "ForecasterAutoregDirect"]

/-- Events produced by the body of a backtest run (fits and per-fold work),
used to observe whether the type gate fires before any of them happen. -/
inductive BacktestEvent where
  | fitEvent
  | foldEvent (i : ℕ)
deriving Repr, DecidableEq

/-- `backtesting_forecaster` entry: the type-name gate.  `run` stands for
everything after the gate (validation, the eager fit and the fold loop),
producing the run's events. -/
def backtesting_forecaster_gate (name : String) (run : Unit → List BacktestEvent) :
    Except String (List BacktestEvent) :=
  if name ∈ forecasters_allowed then .ok (run ()) else .error "TypeError"

/-- Claim C9: `backtesting_forecaster` raises `TypeError` before any fitting
or fold work exactly when the forecaster's type name is not one of
`ForecasterAutoreg`, `ForecasterAutoregDirect`, `ForecasterEquivalentDate`;
in particular `ForecasterEquivalentDate` is accepted even though the
documented parameter types list only the first two. -/
theorem claim_C9_type_gate (name : String) (run : Unit → List BacktestEvent) :
    (backtesting_forecaster_gate name run = .error "TypeError"
      ↔ name ∉ forecasters_allowed)
    ∧ (name ∈ forecasters_allowed
      → backtesting_forecaster_gate name run = .ok (run ()))
    ∧ "ForecasterEquivalentDate" ∈ forecasters_allowed
    ∧ "ForecasterEquivalentDate" ∉ documented_forecasters := by
  refine ⟨?_, ?_, by decide, by decide⟩
  · constructor
    · intro h hmem
      rw [backtesting_forecaster_gate, if_pos hmem] at h
      exact Except.noConfusion h
    · intro h
      rw [backtesting_forecaster_gate, if_neg h]
  · intro h
    rw [backtesting_forecaster_gate, if_pos h]

theorem claim_C9_witness :
    (backtesting_forecaster_gate "ForecasterSarimax" (fun _ => [.fitEvent])
        = .error "TypeError"
      ↔ "ForecasterSarimax" ∉ forecasters_allowed)
    ∧ ("ForecasterSarimax" ∈ forecasters_allowed
      → backtesting_forecaster_gate "ForecasterSarimax" (fun _ => [.fitEvent])
          = .ok [.fitEvent])
    ∧ "ForecasterEquivalentDate" ∈ forecasters_allowed
    ∧ "ForecasterEquivalentDate" ∉ documented_forecasters :=
  claim_C9_type_gate "ForecasterSarimax" (fun _ => [.fitEvent])

/-! ## Metric computation of `_backtesting_forecaster` (claim C5)

Embedding of `_validation.py` lines 275-293: training indexes are collected
for the first fold and every fold with a true fit flag, each contributing
`arange(train_start + window_size, train_end)`; the concatenation passes
through `np.unique` (sort and deduplicate); each metric is applied to
`(y` at the predicted indexes, the `pred` column, `y` at the training
indexes`)`. -/

/-- Insert `x` into a sorted duplicate-free list, keeping it sorted and
duplicate-free. -/
def insUnique (x : ℕ) : List ℕ → List ℕ
  | [] => [x]
  | y :: ys => if x < y then x :: y :: ys else if x = y then y :: ys else y :: insUnique x ys

/-- `np.unique`: the sorted duplicate-free list of the elements. -/
def uniqueSorted (l : List ℕ) : List ℕ := l.foldr insUnique []

theorem mem_insUnique (x a : ℕ) : ∀ l : List ℕ, a ∈ insUnique x l ↔ a = x ∨ a ∈ l := by
  intro l
  induction l with
  | nil => simp [insUnique]
  | cons y ys ih =>
    rw [insUnique]
    by_cases h1 : x < y
    · rw [if_pos h1]; simp
    · rw [if_neg h1]
      by_cases h2 : x = y
      · rw [if_pos h2]
        subst h2
        simp only [List.mem_cons]
        tauto
      · rw [if_neg h2]
        simp only [List.mem_cons, ih]
        tauto

theorem pairwise_insUnique (x : ℕ) :
    ∀ l : List ℕ, l.Pairwise (· < ·) → (insUnique x l).Pairwise (· < ·) := by
  intro l
  induction l with
  | nil => intro _; simp [insUnique]
  | cons y ys ih =>
    intro h
    rw [List.pairwise_cons] at h
    rw [insUnique]
    by_cases h1 : x < y
    · rw [if_pos h1, List.pairwise_cons]
      refine ⟨?_, List.pairwise_cons.mpr h⟩
      intro a ha
      rcases List.mem_cons.mp ha with rfl | ha
      · exact h1
      · exact lt_trans h1 (h.1 a ha)
    · rw [if_neg h1]
      by_cases h2 : x = y
      · rw [if_pos h2, List.pairwise_cons]
        exact h
      · rw [if_neg h2, List.pairwise_cons]
        refine ⟨?_, ih h.2⟩
        intro a ha
        rcases (mem_insUnique x a ys).mp ha with rfl | ha
        · omega
        · exact h.1 a ha

theorem mem_uniqueSorted (a : ℕ) : ∀ l : List ℕ, a ∈ uniqueSorted l ↔ a ∈ l := by
  intro l
  induction l with
  | nil => simp [uniqueSorted]
  | cons y ys ih =>
    rw [uniqueSorted, List.foldr_cons,
      show List.foldr insUnique [] ys = uniqueSorted ys from rfl,
      mem_insUnique]
    simp [ih]

theorem pairwise_uniqueSorted : ∀ l : List ℕ, (uniqueSorted l).Pairwise (· < ·) := by
  intro l
  induction l with
  | nil => simp [uniqueSorted]
  | cons y ys ih =>
    rw [uniqueSorted, List.foldr_cons]
    exact pairwise_insUnique y _ ih

/-- `np.arange(train_start + window_size, train_end)`: the training range of
a fold with its first `window_size` observations excluded (they only prime
the predictors). -/
def foldTrainIdx (ws : ℕ) (f : Fold) : List ℕ :=
  List.range' (f.trainStart + ws) (f.trainEnd - (f.trainStart + ws))

/-- `_validation.py` lines 275-281: walk the folds with their enumeration
index, keeping the training ranges of the first fold and of every fold whose
fit flag is set. -/
def rawTrainIdxFrom (ws : ℕ) : ℕ → List Fold → List ℕ
  | _, [] => []
  | i, f :: fs =>
    (if i = 0 ∨ f.fit then foldTrainIdx ws f else []) ++ rawTrainIdxFrom ws (i + 1) fs

/-- `train_indexes = np.unique(np.concatenate(train_indexes))`. -/
def trainIndexes (folds : List Fold) (ws : ℕ) : List ℕ :=
  uniqueSorted (rawTrainIdxFrom ws 0 folds)

/-- A metric callable after `add_y_train_argument`: arguments
`(y_true, y_pred, y_train)`. -/
def MetricFn : Type := List ℚ → List ℚ → List ℚ → ℚ

/-- `_validation.py` lines 284-293: the returned metric values. -/
def backtestMetricValues (metrics : List MetricFn) (y : ℕ → ℚ) (folds : List Fold)
    (ws : ℕ) (predIdx : List ℕ) (preds : List ℚ) : List ℚ :=
  metrics.map (fun m => m (predIdx.map y) preds ((trainIndexes folds ws).map y))

theorem mem_range'_sub (s b j : ℕ) : j ∈ List.range' s (b - s) ↔ s ≤ j ∧ j < b := by
  rw [List.mem_range'_1]
  omega

theorem mem_rawTrainIdxFrom (ws j : ℕ) :
    ∀ (fs : List Fold) (i0 : ℕ),
      j ∈ rawTrainIdxFrom ws i0 fs
        ↔ ∃ t, t < fs.length ∧ (i0 + t = 0 ∨ (fs.getD t default).fit = true)
            ∧ (fs.getD t default).trainStart + ws ≤ j
            ∧ j < (fs.getD t default).trainEnd := by
  intro fs
  induction fs with
  | nil => intro i0; simp [rawTrainIdxFrom]
  | cons f fs ih =>
    intro i0
    rw [rawTrainIdxFrom, List.mem_append]
    constructor
    · intro h
      rcases h with h | h
      · by_cases hc : i0 = 0 ∨ f.fit
        · rw [if_pos hc] at h
          rw [foldTrainIdx, mem_range'_sub] at h
          refine ⟨0, by simp, ?_, by simpa using h.1, by simpa using h.2⟩
          simpa [Nat.add_zero] using hc.imp (fun h0 => by omega) (fun hf => by simpa using hf)
        · rw [if_neg hc] at h
          exact absurd h (List.not_mem_nil j)
      · obtain ⟨t, ht, hcond, hlo, hhi⟩ := (ih (i0 + 1)).mp h
        exact ⟨t + 1, by simpa using ht, by simpa [Nat.add_assoc] using hcond,
          by simpa using hlo, by simpa using hhi⟩
    · rintro ⟨t, ht, hcond, hlo, hhi⟩
      cases t with
      | zero =>
        left
        have hc : i0 = 0 ∨ f.fit := by
          rcases hcond with h0 | hf
          · left; omega
          · right; simpa using hf
        rw [if_pos hc, foldTrainIdx, mem_range'_sub]
        exact ⟨by simpa using hlo, by simpa using hhi⟩
      | succ t =>
        right
        refine (ih (i0 + 1)).mpr ⟨t, by simpa using ht, ?_, by simpa using hlo,
          by simpa using hhi⟩
        simpa [Nat.add_assoc] using hcond

/-- Claim C5: each returned metric value is the direct application of the
metric to `(true values at the predicted indexes, predictions, training
values)`, where the training indexes are exactly the union over the first
fold and every fitted fold of that fold's training range minus its first
`window_size` observations, sorted and deduplicated. -/
theorem claim_C5_metric_computation (metrics : List MetricFn) (y : ℕ → ℚ)
    (folds : List Fold) (ws : ℕ) (predIdx : List ℕ) (preds : List ℚ) :
    backtestMetricValues metrics y folds ws predIdx preds
      = metrics.map (fun m => m (predIdx.map y) preds ((trainIndexes folds ws).map y))
    ∧ (∀ j, j ∈ trainIndexes folds ws
        ↔ ∃ t, t < folds.length ∧ (t = 0 ∨ (folds.getD t default).fit = true)
            ∧ (folds.getD t default).trainStart + ws ≤ j
            ∧ j < (folds.getD t default).trainEnd)
    ∧ (trainIndexes folds ws).Pairwise (· < ·) := by
  refine ⟨rfl, ?_, pairwise_uniqueSorted _⟩
  intro j
  rw [trainIndexes, mem_uniqueSorted, mem_rawTrainIdxFrom]
  constructor
  · rintro ⟨t, ht, hc, h1, h2⟩
    exact ⟨t, ht, by simpa using hc, h1, h2⟩
  · rintro ⟨t, ht, hc, h1, h2⟩
    exact ⟨t, ht, by simpa using hc, h1, h2⟩

theorem claim_C5_witness :
    backtestMetricValues [] (fun _ => 0) [⟨0, 10, 7, 10, 10, 13, 10, 13, false⟩] 3 [] []
      = ([] : List MetricFn).map (fun m => m (([] : List ℕ).map (fun _ => (0 : ℚ))) []
          ((trainIndexes [⟨0, 10, 7, 10, 10, 13, 10, 13, false⟩] 3).map (fun _ => (0 : ℚ))))
    ∧ (∀ j, j ∈ trainIndexes [⟨0, 10, 7, 10, 10, 13, 10, 13, false⟩] 3
        ↔ ∃ t, t < 1 ∧ (t = 0
            ∨ (([⟨0, 10, 7, 10, 10, 13, 10, 13, false⟩] : List Fold).getD t default).fit = true)
            ∧ (([⟨0, 10, 7, 10, 10, 13, 10, 13, false⟩] : List Fold).getD t default).trainStart + 3 ≤ j
            ∧ j < (([⟨0, 10, 7, 10, 10, 13, 10, 13, false⟩] : List Fold).getD t default).trainEnd)
    ∧ (trainIndexes [⟨0, 10, 7, 10, 10, 13, 10, 13, false⟩] 3).Pairwise (· < ·) :=
  claim_C5_metric_computation [] (fun _ => 0) [⟨0, 10, 7, 10, 10, 13, 10, 13, false⟩] 3 [] []

/-! ## Fold splitting and prediction stitching (claim C6) -/

/-- Modelled from the spec: the number of folds produced by the fold
splitter — one fold per `steps`-sized block of the evaluation span
`N - initial_train_size - gap`, the last block possibly shorter
(spec sections 2 and 4.3). -/
def numFolds (N init gap steps : ℕ) : ℕ := (N - init - gap + steps - 1) / steps

/-- Modelled from the spec: the `i`-th fold descriptor produced by
`TimeSeriesFold.split` (an external collaborator whose implementation file
is not among the sources): training range from the series start (growing
mode) to `init + i * steps`, test range of `gap + steps` observations
starting right after it (clipped at `N`), no-gap test range with the first
`gap` of those removed, fit flag from the refit policy (first fold always
marked for fitting). -/
def splitFold (N init gap steps ws : ℕ) (refit : Bool) (i : ℕ) : Fold where
  trainStart := 0
  trainEnd := init + i * steps
  lwStart := init + i * steps - ws
  lwEnd := init + i * steps
  testStart := init + i * steps
  testEnd := min (init + gap + (i + 1) * steps) N
  tngStart := init + i * steps + gap
  tngEnd := min (init + gap + (i + 1) * steps) N
  fit := if i = 0 then true else refit

/-- Modelled from the spec: the ordered fold plan. -/
def splitFolds (N init gap steps ws : ℕ) (refit : Bool) : List Fold :=
  (List.range (numFolds N init gap steps)).map (splitFold N init gap steps ws refit)

/-- `_validation.py` lines 264-273: fold predictions are concatenated in
fold order; this is the time index of the stitched prediction table. -/
def backtestPredIndexes (isDirect : Bool) (gap : ℕ) (folds : List Fold) : List ℕ :=
  (folds.map (foldReturnedIndexes isDirect gap)).flatten

theorem range'_append_one : ∀ (a s b : ℕ),
    List.range' s a ++ List.range' (s + a) b = List.range' s (a + b) := by
  intro a
  induction a with
  | zero => intro s b; simp
  | succ a ih =>
    intro s b
    rw [List.range'_succ, List.cons_append, show s + (a + 1) = (s + 1) + a from by omega,
      ih (s + 1) b, show a + 1 + b = (a + b) + 1 from by omega, List.range'_succ]

theorem foldReturnedIndexes_nogap (f : Fold) :
    foldReturnedIndexes false 0 f
      = (List.range (f.testEnd - f.testStart)).map (fun j => f.testStart + j) := by
  rw [foldReturnedIndexes, if_neg (by simp)]
  rfl

/-- Claim C6: a backtest with `gap = 0`, `refit = False`, series length `N`,
`initial_train_size = N - 12` and `steps = 3` returns exactly 12
predictions, with strictly increasing (hence duplicate-free) time index
equal to the last 12 positions of the series — a subset of the original
series index. -/
theorem claim_C6_twelve_predictions (N ws : ℕ) (h : 12 ≤ N) :
    backtestPredIndexes false 0 (splitFolds N (N - 12) 0 3 ws false)
      = List.range' (N - 12) 12
    ∧ (backtestPredIndexes false 0 (splitFolds N (N - 12) 0 3 ws false)).length = 12
    ∧ (backtestPredIndexes false 0 (splitFolds N (N - 12) 0 3 ws false)).Pairwise (· < ·)
    ∧ ∀ j ∈ backtestPredIndexes false 0 (splitFolds N (N - 12) 0 3 ws false), j < N := by
  obtain ⟨m, rfl⟩ : ∃ m, N = m + 12 := ⟨N - 12, by omega⟩
  have h12 : m + 12 - 12 = m := by omega
  rw [h12]
  have hnum : numFolds (m + 12) m 0 3 = 4 := by
    unfold numFolds
    omega
  have hone : ∀ i, i < 4 →
      foldReturnedIndexes false 0 (splitFold (m + 12) m 0 3 ws false i)
        = List.range' (m + i * 3) 3 := by
    intro i hi
    rw [foldReturnedIndexes_nogap]
    have hmin : min (m + 0 + (i + 1) * 3) (m + 12) = m + 0 + (i + 1) * 3 :=
      Nat.min_eq_left (by omega)
    show (List.range (min (m + 0 + (i + 1) * 3) (m + 12) - (m + i * 3))).map
        (fun j => (m + i * 3) + j) = _
    rw [hmin, show m + 0 + (i + 1) * 3 - (m + i * 3) = 3 from by omega,
      range_map_add_eq_range']
  have key : backtestPredIndexes false 0 (splitFolds (m + 12) m 0 3 ws false)
      = List.range' m 12 := by
    rw [backtestPredIndexes, splitFolds, hnum,
      show List.range 4 = [0, 1, 2, 3] from rfl]
    simp only [List.map_cons, List.map_nil,
      hone 0 (by norm_num), hone 1 (by norm_num), hone 2 (by norm_num),
      hone 3 (by norm_num), List.flatten_cons, List.flatten_nil, List.append_nil]
    rw [show m + 0 * 3 = m from by omega, show m + 1 * 3 = m + 3 from by omega,
      show m + 2 * 3 = m + 6 from by omega, show m + 3 * 3 = m + 9 from by omega]
    rw [show (m + 9 : ℕ) = (m + 6) + 3 from by omega, range'_append_one 3 (m + 6) 3]
    rw [show (m + 6 : ℕ) = (m + 3) + 3 from by omega, range'_append_one 3 (m + 3) (3 + 3)]
    rw [range'_append_one 3 m (3 + (3 + 3))]
  refine ⟨key, by rw [key]; simp, ?_, ?_⟩
  · rw [key]
    exact List.pairwise_lt_range' m 12 1 (by omega)
  · intro j hj
    rw [key, List.mem_range'_1] at hj
    omega

theorem claim_C6_witness :
    backtestPredIndexes false 0 (splitFolds 50 (50 - 12) 0 3 3 false)
      = List.range' (50 - 12) 12
    ∧ (backtestPredIndexes false 0 (splitFolds 50 (50 - 12) 0 3 3 false)).length = 12
    ∧ (backtestPredIndexes false 0 (splitFolds 50 (50 - 12) 0 3 3 false)).Pairwise (· < ·)
    ∧ ∀ j ∈ backtestPredIndexes false 0 (splitFolds 50 (50 - 12) 0 3 3 false), j < 50 :=
  claim_C6_twelve_predictions 50 3 (by norm_num)

/-! ## Forecaster isolation (claim C7)

`_validation.py` line 116 rebinds the local name to `deepcopy(forecaster)`;
the eager fit (lines 164-176) and every fold fit (lines 222-226, executed in
joblib workers) mutate only copies.  Object identities are made explicit by
a heap of forecaster states: the caller's forecaster is a cell of the heap,
and the run only ever appends and mutates fresh cells. -/

/-- An observable forecaster state: the list of training ranges it has been
fit on, oldest first. -/
structure ForecasterSt where
  fitted : List (ℕ × ℕ)
deriving Repr, DecidableEq, Inhabited

/-- `forecaster.fit(y=y.iloc[a:b], ...)`. -/
def fitOn (fc : ForecasterSt) (a b : ℕ) : ForecasterSt :=
  ⟨fc.fitted ++ [(a, b)]⟩

/-- The orchestrator's private copy after the entry `deepcopy` and the
eager initial fit on `y.iloc[:initial_train_size]` (when present). -/
def backtestBase (heap : List ForecasterSt) (ref : ℕ) (initTrain : Option ℕ) :
    ForecasterSt :=
  match initTrain with
  | none => heap.getD ref default
  | some n => fitOn (heap.getD ref default) 0 n

/-- Modelled from the spec: the private per-worker forecaster state of one
fold's work unit (spec section 5: each joblib worker receives its own deep
copy; the joblib dispatch itself is an external collaborator).  A fold whose
fit flag is set refits its copy on the fold's training range
(`_validation.py` lines 217-226); otherwise the copy is used as-is with an
explicit last window. -/
def workerCell (base : ForecasterSt) (f : Fold) : ForecasterSt :=
  if f.fit then fitOn base f.trainStart f.trainEnd else base

/-- The heap after a backtest run: the caller's cells, then the
orchestrator's deep copy (after the eager fit), then one private cell per
fold. -/
def backtestForecasterHeap (heap : List ForecasterSt) (ref : ℕ)
    (initTrain : Option ℕ) (folds : List Fold) : List ForecasterSt :=
  (heap ++ [backtestBase heap ref initTrain])
    ++ folds.map (workerCell (backtestBase heap ref initTrain))

/-- Claim C7: the backtest never modifies the caller's forecaster — every
pre-existing heap cell (in particular the caller's `ref`) is unchanged after
the run — and each fold's fit operates on its own private cell, derived from
the eagerly fitted copy, at a distinct fresh address per fold. -/
theorem claim_C7_forecaster_isolation (heap : List ForecasterSt) (ref : ℕ)
    (initTrain : Option ℕ) (folds : List Fold) :
    (backtestForecasterHeap heap ref initTrain folds).take heap.length = heap
    ∧ (ref < heap.length →
        (backtestForecasterHeap heap ref initTrain folds)[ref]? = heap[ref]?)
    ∧ ∀ i (hi : i < folds.length),
        (backtestForecasterHeap heap ref initTrain folds)[heap.length + 1 + i]?
          = some (workerCell (backtestBase heap ref initTrain) (folds.get ⟨i, hi⟩)) := by
  have htake : (backtestForecasterHeap heap ref initTrain folds).take heap.length
      = heap := by
    rw [backtestForecasterHeap, List.append_assoc]
    exact List.take_left heap _
  refine ⟨htake, ?_, ?_⟩
  · intro hr
    rw [backtestForecasterHeap, List.append_assoc, List.getElem?_append_left hr]
  · intro i hi
    rw [backtestForecasterHeap, List.getElem?_append_right (by simp)]
    have hlen : heap.length + 1 + i - (heap ++ [backtestBase heap ref initTrain]).length
        = i := by
      simp
    rw [hlen, List.getElem?_map, List.getElem?_eq_getElem hi]
    rfl

theorem claim_C7_witness :
    (backtestForecasterHeap [⟨[]⟩] 0 (some 38)
        [⟨0, 41, 38, 41, 41, 44, 41, 44, true⟩]).take 1 = [⟨[]⟩]
    ∧ (backtestForecasterHeap [⟨[]⟩] 0 (some 38)
        [⟨0, 41, 38, 41, 41, 44, 41, 44, true⟩])[0]? = some ⟨[]⟩
    ∧ (backtestForecasterHeap [⟨[]⟩] 0 (some 38)
          [⟨0, 41, 38, 41, 41, 44, 41, 44, true⟩])[2]?
        = some (workerCell (backtestBase [⟨[]⟩] 0 (some 38))
            ⟨0, 41, 38, 41, 41, 44, 41, 44, true⟩) := by
  have h := claim_C7_forecaster_isolation [⟨[]⟩] 0 (some 38)
    [⟨0, 41, 38, 41, 41, 44, 41, 44, true⟩]
  refine ⟨by simpa using h.1, by simpa using h.2.1 (by norm_num), ?_⟩
  have h2 := h.2.2 0 (by norm_num)
  simpa using h2

/-! ## Fold-plan (cv) isolation (claim C10)

`_validation.py` lines 116-124: `cv = deepcopy(cv)` rebinds the local name,
then `cv.set_params({window_size, differentiation, return_all_indexes,
verbose})` mutates only the copy. -/

/-- The parameters of a `TimeSeriesFold` object observable around the
backtest call. -/
structure TimeSeriesFoldParams where
  steps : ℕ
  initial_train_size : Option ℕ
  window_size : ℕ
  differentiation : Option ℕ
  refit : RefitArg
  gap : ℕ
  fixed_train_size : Bool
  return_all_indexes : Bool
  verbose : Bool
deriving Repr, DecidableEq

instance : Inhabited TimeSeriesFoldParams :=
  ⟨⟨1, none, 1, none, .ofBool false, 0, false, false, false⟩⟩

/-- `_validation.py` lines 119-124: the `set_params` call made by
`_backtesting_forecaster`, overwriting exactly `window_size`,
`differentiation`, `return_all_indexes` (to `False`) and `verbose`. -/
def set_params_backtest (cv : TimeSeriesFoldParams) (ws : ℕ) (diff : Option ℕ)
    (vb : Bool) : TimeSeriesFoldParams :=
  { cv with window_size := ws, differentiation := diff,
            return_all_indexes := false, verbose := vb }

/-- The cv heap after `cv = deepcopy(cv); cv.set_params(...)`: the caller's
cells unchanged, plus one fresh cell holding the reparameterised copy. -/
def backtestCvHeap (heap : List TimeSeriesFoldParams) (ref : ℕ) (ws : ℕ)
    (diff : Option ℕ) (vb : Bool) : List TimeSeriesFoldParams :=
  heap ++ [set_params_backtest (heap.getD ref default) ws diff vb]

/-- Claim C10: the backtest orchestrator never modifies the caller's cv
object: `set_params` is applied only to the deep copy, so every caller cell
(in particular `ref`) is unchanged; on the copy exactly `window_size`,
`differentiation`, `return_all_indexes` and `verbose` are overwritten and
all other parameters survive. -/
theorem claim_C10_cv_isolation (heap : List TimeSeriesFoldParams) (ref : ℕ)
    (ws : ℕ) (diff : Option ℕ) (vb : Bool) (cv : TimeSeriesFoldParams) :
    (backtestCvHeap heap ref ws diff vb).take heap.length = heap
    ∧ (ref < heap.length → (backtestCvHeap heap ref ws diff vb)[ref]? = heap[ref]?)
    ∧ (backtestCvHeap heap ref ws diff vb)[heap.length]?
        = some (set_params_backtest (heap.getD ref default) ws diff vb)
    ∧ (set_params_backtest cv ws diff vb).window_size = ws
    ∧ (set_params_backtest cv ws diff vb).differentiation = diff
    ∧ (set_params_backtest cv ws diff vb).return_all_indexes = false
    ∧ (set_params_backtest cv ws diff vb).verbose = vb
    ∧ (set_params_backtest cv ws diff vb).steps = cv.steps
    ∧ (set_params_backtest cv ws diff vb).initial_train_size = cv.initial_train_size
    ∧ (set_params_backtest cv ws diff vb).refit = cv.refit
    ∧ (set_params_backtest cv ws diff vb).gap = cv.gap
    ∧ (set_params_backtest cv ws diff vb).fixed_train_size = cv.fixed_train_size := by
  refine ⟨List.take_left heap _, ?_, ?_, rfl, rfl, rfl, rfl, rfl, rfl, rfl, rfl, rfl⟩
  · intro hr
    rw [backtestCvHeap, List.getElem?_append_left hr]
  · rw [backtestCvHeap, List.getElem?_append_right (Nat.le_refl _)]
    simp

theorem claim_C10_witness :
    (backtestCvHeap [default] 0 5 none false).take 1 = [default]
    ∧ (backtestCvHeap [default] 0 5 none false)[0]?
        = ([default] : List TimeSeriesFoldParams)[0]?
    ∧ (backtestCvHeap [default] 0 5 none false)[1]?
        = some (set_params_backtest (([default] : List TimeSeriesFoldParams).getD 0 default)
            5 none false)
    ∧ (set_params_backtest default 5 none false).window_size = 5
    ∧ (set_params_backtest default 5 none false).differentiation = none
    ∧ (set_params_backtest default 5 none false).return_all_indexes = false
    ∧ (set_params_backtest default 5 none false).verbose = false
    ∧ (set_params_backtest default 5 none false).steps
        = (default : TimeSeriesFoldParams).steps
    ∧ (set_params_backtest default 5 none false).initial_train_size
        = (default : TimeSeriesFoldParams).initial_train_size
    ∧ (set_params_backtest default 5 none false).refit
        = (default : TimeSeriesFoldParams).refit
    ∧ (set_params_backtest default 5 none false).gap
        = (default : TimeSeriesFoldParams).gap
    ∧ (set_params_backtest default 5 none false).fixed_train_size
        = (default : TimeSeriesFoldParams).fixed_train_size := by
  have h := claim_C10_cv_isolation [default] 0 5 none false default
  exact ⟨by simpa using h.1, h.2.1 (by norm_num), by simpa using h.2.2.1,
    h.2.2.2.1, h.2.2.2.2.1, h.2.2.2.2.2.1, h.2.2.2.2.2.2.1, h.2.2.2.2.2.2.2.1,
    h.2.2.2.2.2.2.2.2.1, h.2.2.2.2.2.2.2.2.2.1, h.2.2.2.2.2.2.2.2.2.2.1,
    h.2.2.2.2.2.2.2.2.2.2.2⟩
